import Mathlib

/-!
Shallow embedding of the ytmusic metadata resolution engine
(internal/metadata: resolver.go, normalizer.go, and the tag writer), with
proofs about the candidate scorer, the primary-match selector, the gap
filler, the query normalizer and the batch orchestrator.

Modelling conventions:
* Go strings are lists of characters (`GoStr`).
* Go `float64` confidence scores are exact fractions (`Q`, an integer
  numerator/denominator pair without normalisation; every value the code
  produces has a positive denominator).  All score arithmetic in the source
  (products and sums of small decimal constants and token ratios) is exact
  at the precision where the code compares values, so comparisons of the
  exact fractions agree with the float comparisons the code performs.
* Character predicates (`unicode.IsSpace`, `unicode.IsLetter`,
  `unicode.IsDigit`, `strings.ToLower`, `strings.EqualFold`) are modelled
  on the ASCII fragment, which covers every string the theorems below
  evaluate.
* Context cancellation, logging and the actual taglib file I/O are outside
  the embedding: taglib read/write results are inputs of the model.
-/

namespace Ytm

/-- Go strings, modelled as their sequence of runes. -/
abbrev GoStr := List Char

/-- The whitespace test used by `strings.Fields`, `strings.TrimSpace` and
`unicode.IsSpace` (ASCII fragment of Go's White_Space table). -/
def goIsSpace (c : Char) : Bool :=
  c = ' ' || c = '\t' || c = '\n' || c = '\x0b' || c = '\x0c' || c = '\r'

/-- Exact fractions standing in for Go `float64` scores.  No normalisation
is performed; the denominator of every value built by the embedded code is
positive. -/
structure Q where
  num : Int
  den : Int
deriving DecidableEq

def qZero : Q := ⟨0, 1⟩

def qOne : Q := ⟨1, 1⟩

def Q.add (a b : Q) : Q := ⟨a.num * b.den + b.num * a.den, a.den * b.den⟩

def Q.mul (a b : Q) : Q := ⟨a.num * b.num, a.den * b.den⟩

/-- Strict comparison by cross-multiplication (the `<` of the floats,
faithful whenever both denominators are positive). -/
def Q.lt (a b : Q) : Prop := a.num * b.den < b.num * a.den

/-- Non-strict comparison by cross-multiplication. -/
def Q.le (a b : Q) : Prop := a.num * b.den ≤ b.num * a.den

/-- Value equality of fractions (structural `=` on `Q` is representation
equality, which is finer). -/
def Q.eqv (a b : Q) : Prop := a.num * b.den = b.num * a.den

instance (a b : Q) : Decidable (Q.lt a b) :=
  inferInstanceAs (Decidable (a.num * b.den < b.num * a.den))

instance (a b : Q) : Decidable (Q.le a b) :=
  inferInstanceAs (Decidable (a.num * b.den ≤ b.num * a.den))

instance (a b : Q) : Decidable (Q.eqv a b) :=
  inferInstanceAs (Decidable (a.num * b.den = b.num * a.den))

theorem Q.le_of_lt {a b : Q} (h : Q.lt a b) : Q.le a b := Int.le_of_lt h

theorem Q.le_refl (a : Q) : Q.le a a := Int.le_refl _

theorem Q.not_lt_iff {a b : Q} : ¬ Q.lt a b ↔ Q.le b a := Int.not_lt

theorem Q.not_le_iff {a b : Q} : ¬ Q.le a b ↔ Q.lt b a := Int.not_le

theorem Q.le_trans {a b c : Q} (ha : 0 < a.den) (hb : 0 < b.den)
    (hc : 0 < c.den) (h1 : Q.le a b) (h2 : Q.le b c) : Q.le a c := by
  unfold Q.le at h1 h2 ⊢
  nlinarith [mul_le_mul_of_nonneg_right h1 (Int.le_of_lt hc),
    mul_le_mul_of_nonneg_right h2 (Int.le_of_lt ha)]

/-- Metadata for a single audio track (`TrackInfo` in metadata.go).
`Duration` (a `time.Duration`) is modelled as nanoseconds. -/
structure TrackInfo where
  Title : GoStr := []
  Artist : GoStr := []
  Album : GoStr := []
  AlbumArtist : GoStr := []
  TrackNumber : Int := 0
  TotalTracks : Int := 0
  DiscNumber : Int := 0
  Year : Int := 0
  ReleaseDate : GoStr := []
  Genre : GoStr := []
  ISRC : GoStr := []
  ArtworkURL : GoStr := []
  Duration : Int := 0
  Confidence : Q := qZero
deriving DecidableEq

/-- The Go zero value of `TrackInfo` (`var best TrackInfo`). -/
def TrackInfo.zeroVal : TrackInfo := {}

/-- A cleaned-up provider search query (`SearchQuery` in metadata.go). -/
structure SearchQuery where
  Title : GoStr := []
  Artist : GoStr := []
  Album : GoStr := []
deriving DecidableEq

/-- `normalize` (resolver.go): lowercase, then keep only letters, digits and
whitespace. -/
def normalize (s : GoStr) : GoStr :=
  (s.map Char.toLower).filter (fun c => c.isAlpha || c.isDigit || goIsSpace c)

/-- Worker for `strings.Fields`: split on runs of whitespace. -/
def fieldsAux : GoStr → GoStr → List GoStr
  | [], acc => if acc = [] then [] else [acc.reverse]
  | c :: cs, acc =>
    if goIsSpace c then
      (if acc = [] then fieldsAux cs [] else acc.reverse :: fieldsAux cs [])
    else fieldsAux cs (c :: acc)

/-- `strings.Fields`. -/
def fieldsGo (s : GoStr) : List GoStr := fieldsAux s []

/-- `tokenize` (resolver.go): `strings.Fields` plus a (redundant) filter of
empty tokens. -/
def tokenize (s : GoStr) : List GoStr :=
  (fieldsGo s).filter (fun f => f ≠ [])

/-- `strings.EqualFold`, on the ASCII fragment: case-insensitive equality. -/
def goEqualFold (a b : GoStr) : Bool :=
  decide (a.map Char.toLower = b.map Char.toLower)

/-- `similarity` (resolver.go): 1 if both empty, 0 if exactly one empty,
1 on compact (space-removed) equality, otherwise token overlap counted
with multiplicity over the larger token-list length. -/
def similarity (a b : GoStr) : Q :=
  if a = [] ∧ b = [] then qOne
  else if a = [] ∨ b = [] then qZero
  else
    let compactA := a.filter (fun c => c ≠ ' ')
    let compactB := b.filter (fun c => c ≠ ' ')
    if compactA = compactB then qOne
    else
      let tokensA := tokenize a
      let tokensB := tokenize b
      if tokensA = [] ∨ tokensB = [] then qZero
      else
        let m := tokensA.countP (fun t => decide (t ∈ tokensB))
        let maxLen := if tokensA.length < tokensB.length then tokensB.length
          else tokensA.length
        Q.mk (m : Int) (maxLen : Int)

/-- `score` (resolver.go): weighted title/artist similarity, album
corroboration boost, compilation penalty, clamp at 1. -/
def score (query : SearchQuery) (result : TrackInfo) : Q :=
  let titleScore := similarity (normalize query.Title) (normalize result.Title)
  let artistScore := similarity (normalize query.Artist) (normalize result.Artist)
  let s := if query.Artist = [] then titleScore
    else Q.add (Q.mul titleScore (Q.mk 6 10)) (Q.mul artistScore (Q.mk 4 10))
  let s := if query.Album ≠ [] ∧ result.Album ≠ [] then
      (if Q.lt (Q.mk 8 10) (similarity (normalize query.Album) (normalize result.Album))
       then Q.mul s (Q.mk 11 10) else s)
    else s
  let s := if goEqualFold result.AlbumArtist ("Various Artists".toList)
    then Q.mul s (Q.mk 8 10) else s
  if Q.lt qOne s then qOne else s

/-- `pickBest` (resolver.go): score every result, keep the strictly best;
the empty case is unreachable in the source (callers check non-emptiness). -/
def pickBest (query : SearchQuery) (results : List TrackInfo) : TrackInfo :=
  match results with
  | [] => TrackInfo.zeroVal
  | r :: rs =>
    rs.foldl
      (fun best r =>
        let c := { r with Confidence := score query r }
        if Q.lt best.Confidence c.Confidence then c else best)
      { r with Confidence := score query r }

theorem similarity_self (a : GoStr) : similarity a a = qOne := by
  unfold similarity
  by_cases h : a = [] <;> simp [h]

/-- The spec's description of `similarity`: identical to the code's version
except that the token-overlap branch works on token SETS (duplicates
removed) and divides by the larger token-set size.  Written from the spec's
words, to be compared against the code's `similarity`. -/
def similaritySpec (a b : GoStr) : Q :=
  if a = [] ∧ b = [] then qOne
  else if a = [] ∨ b = [] then qZero
  else if a.filter (fun c => c ≠ ' ') = b.filter (fun c => c ≠ ' ') then qOne
  else
    let setA := (tokenize a).dedup
    let setB := (tokenize b).dedup
    if setA = [] ∨ setB = [] then qZero
    else Q.mk ((setA.countP (fun t => decide (t ∈ setB))) : Int)
      ((max setA.length setB.length) : Int)

/-- The amended description of `similarity`: token LISTS with multiplicity,
divided by the larger token-list length.  Written in the spec's case order,
to be proven equal to the code's `similarity`. -/
def similarityAmended (a b : GoStr) : Q :=
  if a = [] ∧ b = [] then qOne
  else if a = [] ∨ b = [] then qZero
  else if a.filter (fun c => c ≠ ' ') = b.filter (fun c => c ≠ ' ') then qOne
  else
    let tokensA := tokenize a
    let tokensB := tokenize b
    if tokensA = [] ∨ tokensB = [] then qZero
    else Q.mk ((tokensA.countP (fun t => decide (t ∈ tokensB))) : Int)
      ((max tokensA.length tokensB.length) : Int)

theorem ifMax (m n : Nat) : (if m < n then n else m) = max m n := by
  by_cases h : m < n
  · simp [h, Nat.max_eq_right (Nat.le_of_lt h)]
  · simp [h, Nat.max_eq_left (Nat.not_lt.mp h)]

/-- Claim C6 counterexample: on a = "x x" and b = "x y" the code's
`similarity` returns 1 (the duplicated token "x" is counted twice), while
the claimed token-set formula gives 1/2.  The claim as stated is therefore
false at this input. -/
theorem c6_counterexample :
    Q.eqv (similarity ("x x".toList) ("x y".toList)) qOne ∧
    Q.eqv (similaritySpec ("x x".toList) ("x y".toList)) (Q.mk 1 2) ∧
    ¬ Q.eqv (similarity ("x x".toList) ("x y".toList))
      (similaritySpec ("x x".toList) ("x y".toList)) := by decide

/-- Claim C6 (amended): `similarity` equals the spec's case analysis with
the token-overlap branch computed over token lists with multiplicity
(tokens of `a` counted as often as they occur, denominator the larger
token-list length). -/
theorem c6_amended_similarity_eq (a b : GoStr) :
    similarity a b = similarityAmended a b := by
  simp only [similarity, similarityAmended, ifMax, Nat.cast_max]

/-- Concrete query/candidate pair refuting claim C5: title and artist agree
exactly (both non-empty), but the candidate's AlbumArtist is "Various
Artists", so the compilation penalty multiplies the perfect base score 1.0
by 0.8 and the final score 0.8 falls below 0.99. -/
def c5cexQ : SearchQuery := { Title := ['a'], Artist := ['b'] }

def c5cexC : TrackInfo :=
  { Title := ['a'], Artist := ['b'], AlbumArtist := ("Various Artists".toList) }

/-- Claim C5 counterexample: equal non-empty title and artist do not
guarantee a score of at least 0.99 — the "Various Artists" compilation
penalty drives the score down to 0.8. -/
theorem c5_counterexample :
    (c5cexQ.Title = c5cexC.Title ∧ c5cexQ.Artist = c5cexC.Artist ∧
      c5cexQ.Title ≠ [] ∧ c5cexQ.Artist ≠ []) ∧
    ¬ Q.le (Q.mk 99 100) (score c5cexQ c5cexC) ∧
    Q.eqv (score c5cexQ c5cexC) (Q.mk 8 10) := by decide

/-- Claim C5 (amended): if query and candidate agree on Title and on Artist
(both non-empty) and the candidate's AlbumArtist is not (case-insensitively)
"Various Artists", then the score is at least 0.99 — whatever the other
candidate fields are. -/
theorem c5_amended_score_high (q : SearchQuery) (c : TrackInfo)
    (ht : q.Title = c.Title) (ha : q.Artist = c.Artist)
    (ht0 : q.Title ≠ []) (ha0 : q.Artist ≠ [])
    (hva : goEqualFold c.AlbumArtist ("Various Artists".toList) = false) :
    Q.le (Q.mk 99 100) (score q c) := by
  have hca : ¬ (c.Artist = []) := ha ▸ ha0
  unfold score
  rw [ht, ha]
  simp only [similarity_self, hva, if_neg hca, Bool.false_eq_true, if_false]
  split_ifs <;> decide

def c5wQ : SearchQuery := { Title := ['a'], Artist := ['b'], Album := ['w'] }

def c5wC : TrackInfo :=
  { Title := ['a'], Artist := ['b'], Album := ['w'], AlbumArtist := ['z'] }

theorem c5_witness :
    (c5wQ.Title = c5wC.Title ∧ c5wQ.Artist = c5wC.Artist ∧
      c5wQ.Title ≠ [] ∧ c5wQ.Artist ≠ [] ∧
      goEqualFold c5wC.AlbumArtist ("Various Artists".toList) = false) ∧
    Q.le (Q.mk 99 100) (score c5wQ c5wC) :=
  ⟨by decide, c5_amended_score_high c5wQ c5wC (by decide) (by decide)
    (by decide) (by decide) (by decide)⟩

def c7cexQ : SearchQuery := { Title := ['a'] }

def c7cexC1 : TrackInfo := { Title := ['a'] }

def c7cexC2 : TrackInfo :=
  { Title := ['a'], AlbumArtist := ("Various Artists".toList) }

/-- Claim C7 counterexample: with an empty query artist, two candidates that
agree on Title can still receive different scores — the candidate whose
AlbumArtist is "Various Artists" is penalised (1.0 versus 0.8), so the score
does not depend on title similarity alone. -/
theorem c7_counterexample :
    c7cexQ.Artist = [] ∧ c7cexC1.Title = c7cexC2.Title ∧
    ¬ Q.eqv (score c7cexQ c7cexC1) (score c7cexQ c7cexC2) := by decide

/-- Claim C7 (amended): for a query with empty Artist, the score depends
only on the candidate's Title, Album and AlbumArtist; the candidate's
Artist field is ignored (two candidates agreeing on those three fields get
the same score whatever their Artist and remaining fields are). -/
theorem c7_amended_score_indep (q : SearchQuery) (c c' : TrackInfo)
    (hqa : q.Artist = []) (h1 : c.Title = c'.Title) (h2 : c.Album = c'.Album)
    (h3 : c.AlbumArtist = c'.AlbumArtist) : score q c = score q c' := by
  unfold score
  rw [h1, h2, h3, hqa]
  simp

def c7wQ : SearchQuery := { Title := ['a'], Album := ['w'] }

def c7wC1 : TrackInfo := { Title := ['a'], Artist := ['x'], Album := ['w'] }

def c7wC2 : TrackInfo := { Title := ['a'], Artist := ['y'], Album := ['w'] }

theorem c7_witness :
    (c7wQ.Artist = [] ∧ c7wC1.Title = c7wC2.Title ∧
      c7wC1.Album = c7wC2.Album ∧ c7wC1.AlbumArtist = c7wC2.AlbumArtist ∧
      c7wC1.Artist ≠ c7wC2.Artist) ∧
    score c7wQ c7wC1 = score c7wQ c7wC2 :=
  ⟨by decide, c7_amended_score_indep c7wQ c7wC1 c7wC2 (by decide) (by decide)
    (by decide) (by decide)⟩

/-- Outcome of one `Provider.Search` call: a Go `(results, err)` pair, where
`err` is any non-nil error (its value is irrelevant to the resolver). -/
inductive ProvResult where
  | err
  | ok (results : List TrackInfo)
deriving DecidableEq

/-- Loop body of `findPrimaryMatch` (resolver.go): `best`/`matchIdx` are the
running sub-threshold leader, `i` the index of the next provider. -/
def fpmAux (th : Q) (query : SearchQuery) :
    List ProvResult → TrackInfo → Nat → Nat → TrackInfo × Nat
  | [], best, matchIdx, _ => (best, matchIdx)
  | p :: ps, best, matchIdx, i =>
    match p with
    | .err => fpmAux th query ps best matchIdx (i + 1)
    | .ok [] => fpmAux th query ps best matchIdx (i + 1)
    | .ok (r :: rs) =>
      let candidate := pickBest query (r :: rs)
      if Q.le th candidate.Confidence then (candidate, i)
      else if Q.lt best.Confidence candidate.Confidence then
        fpmAux th query ps candidate i (i + 1)
      else fpmAux th query ps best matchIdx (i + 1)

/-- `findPrimaryMatch` (resolver.go): try providers in order until one
clears the threshold; otherwise return the best sub-threshold leader. -/
def findPrimaryMatch (th : Q) (query : SearchQuery)
    (provs : List ProvResult) : TrackInfo × Nat :=
  fpmAux th query provs TrackInfo.zeroVal 0 0

/-- A provider response "clears" when it is error-free, non-empty, and its
best-scoring candidate reaches the threshold. -/
def clearsB (th : Q) (query : SearchQuery) (p : ProvResult) : Bool :=
  match p with
  | .ok (r :: rs) => decide (Q.le th (pickBest query (r :: rs)).Confidence)
  | _ => false

/-- The comparison step `findPrimaryMatch` applies to its running leader. -/
def keepBetter (acc c : TrackInfo × Nat) : TrackInfo × Nat :=
  if Q.lt acc.1.Confidence c.1.Confidence then c else acc

/-- The scored best candidates the provider sequence yields, paired with
their provider indices (starting at `i`). -/
def scoredFrom (query : SearchQuery) : Nat → List ProvResult → List (TrackInfo × Nat)
  | _, [] => []
  | i, p :: ps =>
    match p with
    | .ok (r :: rs) => (pickBest query (r :: rs), i) :: scoredFrom query (i + 1) ps
    | _ => scoredFrom query (i + 1) ps

theorem similarity_den_pos (a b : GoStr) : 0 < (similarity a b).den := by
  simp only [similarity]
  split_ifs with h1 h2 h3 h4 h5
  · decide
  · decide
  · decide
  · decide
  · push_neg at h4
    have lb : 0 < (tokenize b).length := List.length_pos.mpr h4.2
    show (0 : Int) < ((tokenize b).length : Int)
    exact_mod_cast lb
  · push_neg at h4
    have la : 0 < (tokenize a).length := List.length_pos.mpr h4.1
    show (0 : Int) < ((tokenize a).length : Int)
    exact_mod_cast la

theorem Q.mul_den_pos {a b : Q} (ha : 0 < a.den) (hb : 0 < b.den) :
    0 < (Q.mul a b).den := mul_pos ha hb

theorem Q.add_den_pos {a b : Q} (ha : 0 < a.den) (hb : 0 < b.den) :
    0 < (Q.add a b).den := mul_pos ha hb

theorem score_den_pos (q : SearchQuery) (c : TrackInfo) :
    0 < (score q c).den := by
  have ht := similarity_den_pos (normalize q.Title) (normalize c.Title)
  have ha := similarity_den_pos (normalize q.Artist) (normalize c.Artist)
  simp only [score]
  split_ifs <;>
    (repeat' first
        | exact ht
        | exact ha
        | decide
        | apply Q.mul_den_pos
        | apply Q.add_den_pos)

theorem pickBest_foldl_den_pos (q : SearchQuery) (l : List TrackInfo)
    (init : TrackInfo) (h : 0 < init.Confidence.den) :
    0 < ((l.foldl
      (fun best r =>
        let c := { r with Confidence := score q r }
        if Q.lt best.Confidence c.Confidence then c else best)
      init).Confidence).den := by
  induction l generalizing init with
  | nil => exact h
  | cons r rs ih =>
    simp only [List.foldl_cons]
    apply ih
    by_cases hc : Q.lt init.Confidence (score q r) <;> simp [hc, h, score_den_pos]

theorem pickBest_den_pos (q : SearchQuery) (r : TrackInfo) (rs : List TrackInfo) :
    0 < ((pickBest q (r :: rs)).Confidence).den := by
  unfold pickBest
  exact pickBest_foldl_den_pos q rs _ (score_den_pos q r)

theorem scoredFrom_den_pos (query : SearchQuery) (i : Nat)
    (provs : List ProvResult) :
    ∀ c ∈ scoredFrom query i provs, 0 < c.1.Confidence.den := by
  induction provs generalizing i with
  | nil => intro c hc; simp [scoredFrom] at hc
  | cons p ps ih =>
    intro c hc
    match p with
    | .err => exact ih (i + 1) c hc
    | .ok [] => exact ih (i + 1) c hc
    | .ok (r :: rs) =>
      simp only [scoredFrom, List.mem_cons] at hc
      rcases hc with hc | hc
      · subst hc; exact pickBest_den_pos query r rs
      · exact ih (i + 1) c hc

theorem foldl_keepBetter_mem (l : List (TrackInfo × Nat))
    (acc : TrackInfo × Nat) :
    l.foldl keepBetter acc = acc ∨ l.foldl keepBetter acc ∈ l := by
  induction l generalizing acc with
  | nil => left; rfl
  | cons c cs ih =>
    simp only [List.foldl_cons, List.mem_cons]
    rcases ih (keepBetter acc c) with h | h
    · rw [h]
      unfold keepBetter
      by_cases hlt : Q.lt acc.1.Confidence c.1.Confidence <;> simp [hlt]
    · right; right; exact h

theorem foldl_keepBetter_den_pos (l : List (TrackInfo × Nat))
    (acc : TrackInfo × Nat) (hacc : 0 < acc.1.Confidence.den)
    (hl : ∀ c ∈ l, 0 < c.1.Confidence.den) :
    0 < (l.foldl keepBetter acc).1.Confidence.den := by
  rcases foldl_keepBetter_mem l acc with h | h
  · rw [h]; exact hacc
  · exact hl _ h

theorem foldl_keepBetter_acc_le (l : List (TrackInfo × Nat))
    (acc : TrackInfo × Nat) (hacc : 0 < acc.1.Confidence.den)
    (hl : ∀ c ∈ l, 0 < c.1.Confidence.den) :
    Q.le acc.1.Confidence (l.foldl keepBetter acc).1.Confidence := by
  induction l generalizing acc with
  | nil => exact Q.le_refl _
  | cons c cs ih =>
    simp only [List.foldl_cons]
    have hc := hl c (by simp)
    have hcs : ∀ x ∈ cs, 0 < x.1.Confidence.den := fun x hx => hl x (by simp [hx])
    have hkb : 0 < (keepBetter acc c).1.Confidence.den := by
      unfold keepBetter
      by_cases hlt : Q.lt acc.1.Confidence c.1.Confidence <;> simp [hlt, hacc, hc]
    refine Q.le_trans hacc hkb
      (foldl_keepBetter_den_pos cs (keepBetter acc c) hkb hcs) ?_
      (ih (keepBetter acc c) hkb hcs)
    unfold keepBetter
    by_cases hlt : Q.lt acc.1.Confidence c.1.Confidence <;> simp [hlt]
    · exact Q.le_of_lt hlt
    · exact Q.le_refl _

theorem foldl_keepBetter_mem_le (l : List (TrackInfo × Nat))
    (acc : TrackInfo × Nat) (hacc : 0 < acc.1.Confidence.den)
    (hl : ∀ c ∈ l, 0 < c.1.Confidence.den) :
    ∀ c ∈ l, Q.le c.1.Confidence (l.foldl keepBetter acc).1.Confidence := by
  induction l generalizing acc with
  | nil => intro c hc; simp at hc
  | cons x xs ih =>
    intro c hc
    have hx := hl x (by simp)
    have hxs : ∀ y ∈ xs, 0 < y.1.Confidence.den := fun y hy => hl y (by simp [hy])
    have hkb : 0 < (keepBetter acc x).1.Confidence.den := by
      unfold keepBetter
      by_cases hlt : Q.lt acc.1.Confidence x.1.Confidence <;> simp [hlt, hacc, hx]
    simp only [List.mem_cons] at hc
    simp only [List.foldl_cons]
    rcases hc with hc | hc
    · subst hc
      refine Q.le_trans (hl c (by simp)) hkb
        (foldl_keepBetter_den_pos xs (keepBetter acc c) hkb hxs) ?_
        (foldl_keepBetter_acc_le xs (keepBetter acc c) hkb hxs)
      unfold keepBetter
      by_cases hlt : Q.lt acc.1.Confidence c.1.Confidence
      · simp only [if_pos hlt]
        exact Q.le_refl _
      · simp only [if_neg hlt]
        exact Q.not_lt_iff.mp hlt
    · exact ih (keepBetter acc x) hkb hxs c hc

theorem fpmAux_err (th : Q) (query : SearchQuery) (ps : List ProvResult)
    (best : TrackInfo) (matchIdx i : Nat) :
    fpmAux th query (ProvResult.err :: ps) best matchIdx i =
      fpmAux th query ps best matchIdx (i + 1) := rfl

theorem fpmAux_oknil (th : Q) (query : SearchQuery) (ps : List ProvResult)
    (best : TrackInfo) (matchIdx i : Nat) :
    fpmAux th query (ProvResult.ok [] :: ps) best matchIdx i =
      fpmAux th query ps best matchIdx (i + 1) := rfl

theorem fpmAux_okcons (th : Q) (query : SearchQuery) (r : TrackInfo)
    (rs : List TrackInfo) (ps : List ProvResult) (best : TrackInfo)
    (matchIdx i : Nat) :
    fpmAux th query (ProvResult.ok (r :: rs) :: ps) best matchIdx i =
      (if Q.le th (pickBest query (r :: rs)).Confidence
       then (pickBest query (r :: rs), i)
       else if Q.lt best.Confidence (pickBest query (r :: rs)).Confidence
       then fpmAux th query ps (pickBest query (r :: rs)) i (i + 1)
       else fpmAux th query ps best matchIdx (i + 1)) := rfl

theorem scoredFrom_err (query : SearchQuery) (i : Nat) (ps : List ProvResult) :
    scoredFrom query i (ProvResult.err :: ps) = scoredFrom query (i + 1) ps := rfl

theorem scoredFrom_oknil (query : SearchQuery) (i : Nat) (ps : List ProvResult) :
    scoredFrom query i (ProvResult.ok [] :: ps) = scoredFrom query (i + 1) ps := rfl

theorem scoredFrom_okcons (query : SearchQuery) (i : Nat) (r : TrackInfo)
    (rs : List TrackInfo) (ps : List ProvResult) :
    scoredFrom query i (ProvResult.ok (r :: rs) :: ps) =
      (pickBest query (r :: rs), i) :: scoredFrom query (i + 1) ps := rfl

theorem fpmAux_clear (th : Q) (query : SearchQuery) (r : TrackInfo)
    (rs : List TrackInfo)
    (hc : Q.le th (pickBest query (r :: rs)).Confidence) :
    ∀ (pre post : List ProvResult) (best : TrackInfo) (matchIdx i : Nat),
      (∀ x ∈ pre, clearsB th query x = false) →
      fpmAux th query (pre ++ ProvResult.ok (r :: rs) :: post) best matchIdx i =
        (pickBest query (r :: rs), i + pre.length) := by
  intro pre
  induction pre with
  | nil =>
    intro post best matchIdx i _
    rw [List.nil_append, fpmAux_okcons, if_pos hc]
    simp
  | cons x xs ih =>
    intro post best matchIdx i hx
    have hxf : clearsB th query x = false := hx x (by simp)
    have hxs : ∀ y ∈ xs, clearsB th query y = false := fun y hy => hx y (by simp [hy])
    match x with
    | .err =>
      rw [List.cons_append, fpmAux_err, ih post best matchIdx (i + 1) hxs]
      simp only [Prod.mk.injEq, List.length_cons]
      exact ⟨trivial, by omega⟩
    | .ok [] =>
      rw [List.cons_append, fpmAux_oknil, ih post best matchIdx (i + 1) hxs]
      simp only [Prod.mk.injEq, List.length_cons]
      exact ⟨trivial, by omega⟩
    | .ok (y :: ys) =>
      have hnc : ¬ Q.le th (pickBest query (y :: ys)).Confidence := by
        simpa [clearsB] using hxf
      rw [List.cons_append, fpmAux_okcons, if_neg hnc]
      by_cases hlt : Q.lt best.Confidence (pickBest query (y :: ys)).Confidence
      · rw [if_pos hlt, ih post _ i (i + 1) hxs]
        simp only [Prod.mk.injEq, List.length_cons]
        exact ⟨trivial, by omega⟩
      · rw [if_neg hlt, ih post best matchIdx (i + 1) hxs]
        simp only [Prod.mk.injEq, List.length_cons]
        exact ⟨trivial, by omega⟩

theorem fpmAux_noclear (th : Q) (query : SearchQuery) :
    ∀ (provs : List ProvResult) (best : TrackInfo) (matchIdx i : Nat),
      (∀ x ∈ provs, clearsB th query x = false) →
      fpmAux th query provs best matchIdx i =
        (scoredFrom query i provs).foldl keepBetter (best, matchIdx) := by
  intro provs
  induction provs with
  | nil => intro best matchIdx i _; rfl
  | cons p ps ih =>
    intro best matchIdx i hp
    have hpf : clearsB th query p = false := hp p (by simp)
    have hps : ∀ y ∈ ps, clearsB th query y = false := fun y hy => hp y (by simp [hy])
    match p with
    | .err =>
      rw [fpmAux_err, scoredFrom_err]
      exact ih best matchIdx (i + 1) hps
    | .ok [] =>
      rw [fpmAux_oknil, scoredFrom_oknil]
      exact ih best matchIdx (i + 1) hps
    | .ok (r :: rs) =>
      have hnc : ¬ Q.le th (pickBest query (r :: rs)).Confidence := by
        simpa [clearsB] using hpf
      rw [fpmAux_okcons, if_neg hnc, scoredFrom_okcons, List.foldl_cons]
      by_cases hlt : Q.lt best.Confidence (pickBest query (r :: rs)).Confidence
      · rw [if_pos hlt, ih _ i (i + 1) hps]
        congr 1
        unfold keepBetter
        simp [hlt]
      · rw [if_neg hlt, ih best matchIdx (i + 1) hps]
        congr 1
        unfold keepBetter
        simp [hlt]

theorem scoredFrom_conf_lt (th : Q) (query : SearchQuery) :
    ∀ (provs : List ProvResult) (i : Nat),
      (∀ x ∈ provs, clearsB th query x = false) →
      ∀ c ∈ scoredFrom query i provs, Q.lt c.1.Confidence th := by
  intro provs
  induction provs with
  | nil => intro i _ c hc; simp [scoredFrom] at hc
  | cons p ps ih =>
    intro i hp c hc
    have hpf : clearsB th query p = false := hp p (by simp)
    have hps : ∀ y ∈ ps, clearsB th query y = false := fun y hy => hp y (by simp [hy])
    match p with
    | .err => exact ih (i + 1) hps c hc
    | .ok [] => exact ih (i + 1) hps c hc
    | .ok (r :: rs) =>
      simp only [scoredFrom, List.mem_cons] at hc
      rcases hc with hc | hc
      · subst hc
        exact Q.not_le_iff.mp (by simpa [clearsB] using hpf)
      · exact ih (i + 1) hps c hc

/-- `hasMissingFields` (resolver.go): true when any checked gap field is at
its zero value.  (`TotalTracks` and `ReleaseDate` are merged but not
checked, exactly as in the source.) -/
def hasMissingFields (t : TrackInfo) : Bool :=
  decide (t.Genre = []) || decide (t.TrackNumber = 0) ||
  decide (t.DiscNumber = 0) || decide (t.Year = 0) ||
  decide (t.ISRC = []) || decide (t.ArtworkURL = [])

/-- `mergeTrackInfo` (resolver.go).  The Go code is a sequence of eight
conditional assignments; each assignment writes one field and its condition
reads only that same field of `base` (plus `filler`), so the sequential
updates equal this simultaneous record update. -/
def mergeTrackInfo (base filler : TrackInfo) : TrackInfo :=
  { base with
    Genre := if base.Genre = [] ∧ filler.Genre ≠ [] then filler.Genre else base.Genre
    TrackNumber := if base.TrackNumber = 0 ∧ filler.TrackNumber ≠ 0
      then filler.TrackNumber else base.TrackNumber
    TotalTracks := if base.TotalTracks = 0 ∧ filler.TotalTracks ≠ 0
      then filler.TotalTracks else base.TotalTracks
    DiscNumber := if base.DiscNumber = 0 ∧ filler.DiscNumber ≠ 0
      then filler.DiscNumber else base.DiscNumber
    Year := if base.Year = 0 ∧ filler.Year ≠ 0 then filler.Year else base.Year
    ReleaseDate := if base.ReleaseDate = [] ∧ filler.ReleaseDate ≠ []
      then filler.ReleaseDate else base.ReleaseDate
    ISRC := if base.ISRC = [] ∧ filler.ISRC ≠ [] then filler.ISRC else base.ISRC
    ArtworkURL := if base.ArtworkURL = [] ∧ filler.ArtworkURL ≠ []
      then filler.ArtworkURL else base.ArtworkURL }

/-- Loop of `fillGaps` (resolver.go) over the providers after the primary
match. -/
def fillGapsAux (th : Q) (query : SearchQuery) : List ProvResult → TrackInfo → TrackInfo
  | [], base => base
  | p :: ps, base =>
    match p with
    | .err => fillGapsAux th query ps base
    | .ok [] => fillGapsAux th query ps base
    | .ok (r :: rs) =>
      let filler := pickBest query (r :: rs)
      if Q.lt filler.Confidence th then fillGapsAux th query ps base
      else
        let merged := mergeTrackInfo base filler
        if hasMissingFields merged then fillGapsAux th query ps merged else merged

/-- `fillGaps` (resolver.go): consult providers strictly after the primary
match's index until no gap-fillable field is missing. -/
def fillGaps (th : Q) (query : SearchQuery) (provs : List ProvResult)
    (base : TrackInfo) (fromIdx : Nat) : TrackInfo :=
  if hasMissingFields base
  then fillGapsAux th query (provs.drop (fromIdx + 1)) base
  else base

theorem fillGapsAux_err (th : Q) (query : SearchQuery) (ps : List ProvResult)
    (base : TrackInfo) :
    fillGapsAux th query (ProvResult.err :: ps) base =
      fillGapsAux th query ps base := rfl

theorem fillGapsAux_oknil (th : Q) (query : SearchQuery) (ps : List ProvResult)
    (base : TrackInfo) :
    fillGapsAux th query (ProvResult.ok [] :: ps) base =
      fillGapsAux th query ps base := rfl

theorem fillGapsAux_okcons (th : Q) (query : SearchQuery) (r : TrackInfo)
    (rs : List TrackInfo) (ps : List ProvResult) (base : TrackInfo) :
    fillGapsAux th query (ProvResult.ok (r :: rs) :: ps) base =
      (if Q.lt (pickBest query (r :: rs)).Confidence th
       then fillGapsAux th query ps base
       else if hasMissingFields (mergeTrackInfo base (pickBest query (r :: rs)))
       then fillGapsAux th query ps (mergeTrackInfo base (pickBest query (r :: rs)))
       else mergeTrackInfo base (pickBest query (r :: rs))) := rfl

theorem foldl_merge_auth (fillers : List TrackInfo) :
    ∀ base : TrackInfo,
      (fillers.foldl mergeTrackInfo base).Title = base.Title ∧
      (fillers.foldl mergeTrackInfo base).Artist = base.Artist ∧
      (fillers.foldl mergeTrackInfo base).Album = base.Album ∧
      (fillers.foldl mergeTrackInfo base).AlbumArtist = base.AlbumArtist := by
  induction fillers with
  | nil => intro base; exact ⟨rfl, rfl, rfl, rfl⟩
  | cons f fs ih =>
    intro base
    simp only [List.foldl_cons]
    exact ih (mergeTrackInfo base f)

theorem fillGapsAux_auth (th : Q) (query : SearchQuery) :
    ∀ (provs : List ProvResult) (base : TrackInfo),
      (fillGapsAux th query provs base).Title = base.Title ∧
      (fillGapsAux th query provs base).Artist = base.Artist ∧
      (fillGapsAux th query provs base).Album = base.Album ∧
      (fillGapsAux th query provs base).AlbumArtist = base.AlbumArtist := by
  intro provs
  induction provs with
  | nil => intro base; exact ⟨rfl, rfl, rfl, rfl⟩
  | cons p ps ih =>
    intro base
    match p with
    | .err => rw [fillGapsAux_err]; exact ih base
    | .ok [] => rw [fillGapsAux_oknil]; exact ih base
    | .ok (r :: rs) =>
      rw [fillGapsAux_okcons]
      split_ifs with h1 h2
      · exact ih base
      · exact ih (mergeTrackInfo base (pickBest query (r :: rs)))
      · exact ⟨rfl, rfl, rfl, rfl⟩

/-- Claim C2: `mergeTrackInfo` never changes the authoritative fields of the
base; each gap-fillable field takes the filler's value exactly when the
base's value is the zero value; consequently any sequence of merges — in
particular the whole of `fillGaps` — leaves the authoritative fields of the
primary match untouched. -/
theorem c2_merge_frame (base filler : TrackInfo) :
    (mergeTrackInfo base filler).Title = base.Title ∧
    (mergeTrackInfo base filler).Artist = base.Artist ∧
    (mergeTrackInfo base filler).Album = base.Album ∧
    (mergeTrackInfo base filler).AlbumArtist = base.AlbumArtist ∧
    (mergeTrackInfo base filler).Genre =
      (if base.Genre = [] then filler.Genre else base.Genre) ∧
    (mergeTrackInfo base filler).TrackNumber =
      (if base.TrackNumber = 0 then filler.TrackNumber else base.TrackNumber) ∧
    (mergeTrackInfo base filler).TotalTracks =
      (if base.TotalTracks = 0 then filler.TotalTracks else base.TotalTracks) ∧
    (mergeTrackInfo base filler).DiscNumber =
      (if base.DiscNumber = 0 then filler.DiscNumber else base.DiscNumber) ∧
    (mergeTrackInfo base filler).Year =
      (if base.Year = 0 then filler.Year else base.Year) ∧
    (mergeTrackInfo base filler).ReleaseDate =
      (if base.ReleaseDate = [] then filler.ReleaseDate else base.ReleaseDate) ∧
    (mergeTrackInfo base filler).ISRC =
      (if base.ISRC = [] then filler.ISRC else base.ISRC) ∧
    (mergeTrackInfo base filler).ArtworkURL =
      (if base.ArtworkURL = [] then filler.ArtworkURL else base.ArtworkURL) ∧
    (∀ fillers : List TrackInfo,
      (fillers.foldl mergeTrackInfo base).Title = base.Title ∧
      (fillers.foldl mergeTrackInfo base).Artist = base.Artist ∧
      (fillers.foldl mergeTrackInfo base).Album = base.Album ∧
      (fillers.foldl mergeTrackInfo base).AlbumArtist = base.AlbumArtist) ∧
    (∀ (th : Q) (query : SearchQuery) (provs : List ProvResult) (fromIdx : Nat),
      (fillGaps th query provs base fromIdx).Title = base.Title ∧
      (fillGaps th query provs base fromIdx).Artist = base.Artist ∧
      (fillGaps th query provs base fromIdx).Album = base.Album ∧
      (fillGaps th query provs base fromIdx).AlbumArtist = base.AlbumArtist) := by
  refine ⟨rfl, rfl, rfl, rfl, ?_, ?_, ?_, ?_, ?_, ?_, ?_, ?_,
    fun fillers => foldl_merge_auth fillers base, ?_⟩
  · by_cases hb : base.Genre = [] <;> by_cases hf : filler.Genre = [] <;>
      simp [mergeTrackInfo, hb, hf]
  · by_cases hb : base.TrackNumber = 0 <;> by_cases hf : filler.TrackNumber = 0 <;>
      simp [mergeTrackInfo, hb, hf]
  · by_cases hb : base.TotalTracks = 0 <;> by_cases hf : filler.TotalTracks = 0 <;>
      simp [mergeTrackInfo, hb, hf]
  · by_cases hb : base.DiscNumber = 0 <;> by_cases hf : filler.DiscNumber = 0 <;>
      simp [mergeTrackInfo, hb, hf]
  · by_cases hb : base.Year = 0 <;> by_cases hf : filler.Year = 0 <;>
      simp [mergeTrackInfo, hb, hf]
  · by_cases hb : base.ReleaseDate = [] <;> by_cases hf : filler.ReleaseDate = [] <;>
      simp [mergeTrackInfo, hb, hf]
  · by_cases hb : base.ISRC = [] <;> by_cases hf : filler.ISRC = [] <;>
      simp [mergeTrackInfo, hb, hf]
  · by_cases hb : base.ArtworkURL = [] <;> by_cases hf : filler.ArtworkURL = [] <;>
      simp [mergeTrackInfo, hb, hf]
  · intro th query provs fromIdx
    unfold fillGaps
    split_ifs with h
    · exact fillGapsAux_auth th query (provs.drop (fromIdx + 1)) base
    · exact ⟨rfl, rfl, rfl, rfl⟩

/-- Abstract syntax for the fixed regular expressions of normalizer.go:
case-insensitive literals, greedy `\s*` / `\s+`, single characters from or
outside a set, greedy one-or-more outside a set, an optional group and a
three-way ordered alternation — exactly the constructs those patterns use. -/
inductive Pat where
  | lit (cs : List Char)
  | ws0
  | ws1
  | oneOf (cs : List Char)
  | noneOf0 (cs : List Char)
  | noneOf1 (cs : List Char)
  | opt (g : List Pat)
  | alt3 (g1 g2 g3 : List Pat)

/-- Case-insensitive removal of a literal from the head of the input (the
literal is given lowercase). -/
def dropCi : List Char → List Char → Option (List Char)
  | [], s => some s
  | _ :: _, [] => none
  | a :: as, b :: bs => if b.toLower = a then dropCi as bs else none

/-- Backtracking matcher with Go/Perl leftmost-first semantics (greedy
quantifiers, ordered alternation): returns the rest of the input after a
match of the whole pattern list at the head of `s`.  `fuel` only bounds the
recursion; every call below supplies enough for the patterns at hand. -/
def matchPats : Nat → List Pat → List Char → Option (List Char)
  | 0, _, _ => none
  | _ + 1, [], s => some s
  | fuel + 1, p :: ps, s =>
    match p with
    | .lit cs =>
      match dropCi cs s with
      | some rest => matchPats fuel ps rest
      | none => none
    | .ws0 =>
      match s with
      | [] => matchPats fuel ps []
      | c :: rest =>
        if goIsSpace c then
          match matchPats fuel (.ws0 :: ps) rest with
          | some r => some r
          | none => matchPats fuel ps (c :: rest)
        else matchPats fuel ps (c :: rest)
    | .ws1 =>
      match s with
      | [] => none
      | c :: rest => if goIsSpace c then matchPats fuel (.ws0 :: ps) rest else none
    | .oneOf cs =>
      match s with
      | [] => none
      | c :: rest => if c ∈ cs then matchPats fuel ps rest else none
    | .noneOf0 cs =>
      match s with
      | [] => matchPats fuel ps []
      | c :: rest =>
        if c ∈ cs then matchPats fuel ps (c :: rest)
        else
          match matchPats fuel (.noneOf0 cs :: ps) rest with
          | some r => some r
          | none => matchPats fuel ps (c :: rest)
    | .noneOf1 cs =>
      match s with
      | [] => none
      | c :: rest => if c ∈ cs then none else matchPats fuel (.noneOf0 cs :: ps) rest
    | .opt g =>
      match matchPats fuel (g ++ ps) s with
      | some r => some r
      | none => matchPats fuel ps s
    | .alt3 g1 g2 g3 =>
      match matchPats fuel (g1 ++ ps) s with
      | some r => some r
      | none =>
        match matchPats fuel (g2 ++ ps) s with
        | some r => some r
        | none => matchPats fuel (g3 ++ ps) s

/-- Fuel that amply covers one match attempt of the normalizer patterns. -/
def patFuel (s : List Char) : Nat := s.length * 4 + 100

def tryMatch (p : List Pat) (s : List Char) : Option (List Char) :=
  matchPats (patFuel s) p s

/-- Worker for `Regexp.ReplaceAllString(s, "")`: delete successive
non-overlapping leftmost matches, continuing after each match.  (The guard
against empty matches is unreachable for the normalizer's patterns, which
all contain a mandatory bracket character.) -/
def replaceAllP : Nat → List Pat → List Char → List Char
  | 0, _, s => s
  | fuel + 1, p, s =>
    match tryMatch p s with
    | some r =>
      if r.length < s.length then replaceAllP fuel p r
      else
        match s with
        | [] => []
        | c :: cs => c :: replaceAllP fuel p cs
    | none =>
      match s with
      | [] => []
      | c :: cs => c :: replaceAllP fuel p cs

def goReplaceAll (p : List Pat) (s : List Char) : List Char :=
  replaceAllP (s.length + 1) p s

/-- `strings.TrimSpace`. -/
def trimSpace (s : GoStr) : GoStr :=
  ((s.dropWhile goIsSpace).reverse.dropWhile goIsSpace).reverse

/-- `vevoPattern.ReplaceAllString(artist, "")` with pattern `(?i)vevo$`: the
only possible match is the final four characters. -/
def stripVevo (artist : GoStr) : GoStr :=
  if (artist.reverse.take 4).reverse.map Char.toLower = ("vevo".toList)
  then artist.take (artist.length - 4) else artist

/-- Match of `\s*[-–—]\s*(.+)$` against the text after the lazy group of
`artistTitleSeparator`, returning the second capture: greedy whitespace,
one dash-family character, greedy whitespace, then at least one character
(`.` does not cross a newline, `$` is end of text). -/
def sepTry (r : List Char) : Option GoStr :=
  match r.dropWhile goIsSpace with
  | [] => none
  | d :: rest =>
    if d = '-' ∨ d = '–' ∨ d = '—' then
      let core := rest.dropWhile goIsSpace
      if core ≠ [] then (if core.contains '\n' then none else some core)
      else
        match rest.getLast? with
        | some c => if c = '\n' then none else some [c]
        | none => none
    else none

/-- Lazy growth of the first capture of `^(.+?)\s*[-–—]\s*(.+)$`: try the
separator after every prefix, shortest first; the lazy `.+?` cannot cross a
newline. -/
def satAux : List Char → List Char → Option (GoStr × GoStr)
  | _, [] => none
  | acc, c :: cs =>
    if c = '\n' then none
    else
      match sepTry cs with
      | some t => some ((c :: acc).reverse, t)
      | none => satAux (c :: acc) cs

/-- `artistTitleSeparator.FindStringSubmatch`: the two captures of
`^(.+?)\s*[-–—]\s*(.+)$`, or `none` when the title has no dash split. -/
def splitArtistTitle (s : GoStr) : Option (GoStr × GoStr) := satAux [] s

/-- A parenthesised or bracketed decorative suffix: `\s*`, the opening
bracket, the inner pattern, the closing bracket. -/
def wrapPat (openC closeC : Char) (inner : List Pat) : List Pat :=
  [Pat.ws0, Pat.oneOf [openC]] ++ inner ++ [Pat.oneOf [closeC]]

def innerOfficialVideo : List Pat :=
  [Pat.lit ("official".toList), Pat.ws1,
   Pat.opt [Pat.lit ("music".toList), Pat.ws1], Pat.lit ("video".toList)]

def innerOfficialAudio : List Pat :=
  [Pat.lit ("official".toList), Pat.ws1, Pat.lit ("audio".toList)]

def innerOfficialLyricVideo : List Pat :=
  [Pat.lit ("official".toList), Pat.ws1, Pat.lit ("lyric".toList), Pat.ws1,
   Pat.lit ("video".toList)]

def innerOfficialVisualizer : List Pat :=
  [Pat.lit ("official".toList), Pat.ws1, Pat.lit ("visualizer".toList)]

def innerLyrics : List Pat :=
  [Pat.lit ("lyric".toList), Pat.opt [Pat.lit ("s".toList)]]

def innerVisual : List Pat :=
  [Pat.lit ("visual".toList), Pat.opt [Pat.lit ("izer".toList)]]

def innerAudio : List Pat := [Pat.lit ("audio".toList)]

def innerHd : List Pat := [Pat.lit ("hd".toList)]

def innerHq : List Pat := [Pat.lit ("hq".toList)]

def inner4k : List Pat := [Pat.lit ("4k".toList)]

def innerExplicit : List Pat := [Pat.lit ("explicit".toList)]

def innerClean : List Pat := [Pat.lit ("clean".toList)]

/-- `titleCleanupPatterns` (normalizer.go), in source order: the twelve
parenthesised suffixes, then the same twelve bracketed. -/
def titleCleanupList : List (List Pat) :=
  [wrapPat '(' ')' innerOfficialVideo,
   wrapPat '(' ')' innerOfficialAudio,
   wrapPat '(' ')' innerOfficialLyricVideo,
   wrapPat '(' ')' innerOfficialVisualizer,
   wrapPat '(' ')' innerLyrics,
   wrapPat '(' ')' innerVisual,
   wrapPat '(' ')' innerAudio,
   wrapPat '(' ')' innerHd,
   wrapPat '(' ')' innerHq,
   wrapPat '(' ')' inner4k,
   wrapPat '(' ')' innerExplicit,
   wrapPat '(' ')' innerClean,
   wrapPat '[' ']' innerOfficialVideo,
   wrapPat '[' ']' innerOfficialAudio,
   wrapPat '[' ']' innerOfficialLyricVideo,
   wrapPat '[' ']' innerOfficialVisualizer,
   wrapPat '[' ']' innerLyrics,
   wrapPat '[' ']' innerVisual,
   wrapPat '[' ']' innerAudio,
   wrapPat '[' ']' innerHd,
   wrapPat '[' ']' innerHq,
   wrapPat '[' ']' inner4k,
   wrapPat '[' ']' innerExplicit,
   wrapPat '[' ']' innerClean]

/-- `featuringPattern` (normalizer.go):
`\s*[\(\[]\s*(?:feat\.?|ft\.?|featuring)\s+([^\)\]]+)[\)\]]`. -/
def featuringPat : List Pat :=
  [Pat.ws0, Pat.oneOf ['(', '['], Pat.ws0,
   Pat.alt3 [Pat.lit ("feat".toList), Pat.opt [Pat.lit (".".toList)]]
     [Pat.lit ("ft".toList), Pat.opt [Pat.lit (".".toList)]]
     [Pat.lit ("featuring".toList)],
   Pat.ws1, Pat.noneOf1 [')', ']'], Pat.oneOf [')', ']']]

/-- `NormalizeQuery` (normalizer.go). -/
def NormalizeQuery (title artist : GoStr) : SearchQuery :=
  let title1 := trimSpace title
  let artist1 := trimSpace (stripVevo (trimSpace artist))
  if title1 = [] then { Title := title1, Artist := artist1 }
  else
    let title2 := titleCleanupList.foldl (fun t p => goReplaceAll p t) title1
    let title3 := goReplaceAll featuringPat title2
    let pair :=
      if artist1 = [] then
        match splitArtistTitle title3 with
        | some m => (trimSpace m.1, trimSpace m.2)
        | none => (artist1, title3)
      else (artist1, title3)
    { Title := trimSpace pair.2, Artist := trimSpace pair.1 }

set_option maxRecDepth 10000 in
/-- Claim C8: the three canonical normalizer examples of the spec. -/
theorem c8_normalize_examples :
    NormalizeQuery ("Blinding Lights (Official Video)".toList) ("TheWeekndVEVO".toList) =
      { Title := "Blinding Lights".toList, Artist := "TheWeeknd".toList } ∧
    NormalizeQuery ("The Weeknd - Blinding Lights".toList) [] =
      { Title := "Blinding Lights".toList, Artist := "The Weeknd".toList } ∧
    NormalizeQuery ("HUMBLE. (feat. Jay Rock)".toList) ("Kendrick Lamar".toList) =
      { Title := "HUMBLE.".toList, Artist := "Kendrick Lamar".toList } := by decide

/-- A taglib tag map (`map[string][]string`), as an association list with
unique keys; the keys are the `go.senan.xyz/taglib` constants. -/
abbrev TagMap := List (String × List GoStr)

/-- The `go.senan.xyz/taglib` tag-key constants used by the resolver. -/
def tagTitle : String := "TITLE"

def tagArtist : String := "ARTIST"

def tagAlbum : String := "ALBUM"

/-- `firstTag` (resolver.go). -/
def firstTag (tags : TagMap) (key : String) : GoStr :=
  match tags.find? (fun kv => decide (kv.1 = key)) with
  | some kv =>
    match kv.2 with
    | v :: _ => v
    | [] => []
  | none => []

/-- Per-file inputs of `resolveFile`, abstracting the file system and the
network: the taglib read result (`none` = read error), the responses of the
configured providers in order, and whether the taglib write succeeds. -/
structure FileEnv where
  readTags : Option TagMap
  provResults : List ProvResult
  writeOk : Bool
deriving DecidableEq

/-- What `resolveFile` did: whether it returned an error (counting the file
as failed), whether it wrote tags, and the merged `TrackInfo` it wrote.
Artwork embedding and the `ensureAlbumArtist` heuristic never affect these
(artwork failures only warn; `ensureAlbumArtist` ignores all errors). -/
structure FileOutcome where
  failed : Bool
  wrote : Bool
  written : Option TrackInfo
deriving DecidableEq

/-- The query `resolveFile` builds from the existing tags. -/
def fileQuery (tags : TagMap) : SearchQuery :=
  let q := NormalizeQuery (firstTag tags tagTitle) (firstTag tags tagArtist)
  { q with Album := trimSpace (firstTag tags tagAlbum) }

/-- Body of `resolveFile` (resolver.go) after a successful tag read. -/
def resolveFileTags (th : Q) (tags : TagMap) (provs : List ProvResult)
    (writeOk : Bool) : FileOutcome :=
  if firstTag tags tagTitle = [] then ⟨false, false, none⟩
  else
    let query := fileQuery tags
    if query.Title = [] then ⟨false, false, none⟩
    else
      let bm := findPrimaryMatch th query provs
      if Q.lt bm.1.Confidence th then ⟨false, false, none⟩
      else
        let merged := fillGaps th query provs bm.1 bm.2
        if writeOk then ⟨false, true, some merged⟩ else ⟨true, false, none⟩

/-- `resolveFile` (resolver.go): an error reading tags fails the file; a
missing title or an empty normalized title or a sub-threshold match is a
soft skip; otherwise gaps are filled and tags written, a write error
failing the file. -/
def resolveFile (th : Q) (env : FileEnv) : FileOutcome :=
  match env.readTags with
  | none => ⟨true, false, none⟩
  | some tags => resolveFileTags th tags env.provResults env.writeOk

/-- `Resolve` (resolver.go) with an uncancelled context: processes the batch
sequentially, counting failed files; returns `true` exactly when the Go
function returns a non-nil error (`failed == len(files)`). -/
def Resolve (th : Q) (files : List FileEnv) : Bool :=
  let failed := (files.filter (fun f => (resolveFile th f).failed)).length
  decide (failed = files.length)

theorem fpmAux_allerr (th : Q) (query : SearchQuery) :
    ∀ (provs : List ProvResult) (best : TrackInfo) (matchIdx i : Nat),
      (∀ p ∈ provs, p = ProvResult.err) →
      fpmAux th query provs best matchIdx i = (best, matchIdx) := by
  intro provs
  induction provs with
  | nil => intro best matchIdx i _; rfl
  | cons p ps ih =>
    intro best matchIdx i hp
    have hp0 : p = ProvResult.err := hp p (by simp)
    subst hp0
    rw [fpmAux_err]
    exact ih best matchIdx (i + 1) fun y hy => hp y (by simp [hy])

theorem findPrimaryMatch_allerr (th : Q) (query : SearchQuery)
    (provs : List ProvResult) (h : ∀ p ∈ provs, p = ProvResult.err) :
    findPrimaryMatch th query provs = (TrackInfo.zeroVal, 0) :=
  fpmAux_allerr th query provs TrackInfo.zeroVal 0 0 h

theorem resolveFile_allerr_ok (th : Q) (f : FileEnv) (hth : Q.lt qZero th)
    (hr : f.readTags ≠ none) (hp : ∀ p ∈ f.provResults, p = ProvResult.err) :
    (resolveFile th f).failed = false := by
  obtain ⟨tags, ht⟩ := Option.ne_none_iff_exists'.mp hr
  have hrf : resolveFile th f = resolveFileTags th tags f.provResults f.writeOk := by
    unfold resolveFile; rw [ht]
  rw [hrf]
  simp only [resolveFileTags]
  split_ifs with h1 h2 h3 h4
  · rfl
  · rfl
  · rfl
  all_goals
    exfalso
    apply h3
    rw [findPrimaryMatch_allerr th (fileQuery tags) f.provResults hp]
    exact hth

theorem resolveFile_subthreshold (th : Q) (f : FileEnv) (tags : TagMap)
    (ht : f.readTags = some tags) :
    (Q.lt (findPrimaryMatch th (fileQuery tags) f.provResults).1.Confidence th →
      resolveFile th f = ⟨false, false, none⟩) ∧
    ((resolveFile th f).wrote = true →
      Q.le th (findPrimaryMatch th (fileQuery tags) f.provResults).1.Confidence) := by
  have hrf : resolveFile th f = resolveFileTags th tags f.provResults f.writeOk := by
    unfold resolveFile; rw [ht]
  have sub1 : Q.lt (findPrimaryMatch th (fileQuery tags) f.provResults).1.Confidence th →
      resolveFile th f = ⟨false, false, none⟩ := by
    intro hlt
    rw [hrf]
    simp only [resolveFileTags]
    split_ifs <;> rfl
  refine ⟨sub1, ?_⟩
  intro hw
  by_contra hnle
  have hlt := Q.not_le_iff.mp hnle
  rw [sub1 hlt] at hw
  cases hw

/-- Claim C1 (amended): `findPrimaryMatch` skips erroring and empty
providers; at the first provider whose best-scoring candidate reaches the
threshold (inclusive `≥`) it stops — the result does not depend on the
providers after it — and returns that candidate with that provider's index.
If no provider clears the threshold it returns the fold of the scored best
candidates under the strictly-greater comparison starting from the Go zero
`TrackInfo` at index 0: the result's confidence bounds every seen
candidate's score, stays below the (positive) threshold, and when it is
positive the result is one of the seen candidates with its provider index
(a candidate scoring 0 is never surfaced — the zero `TrackInfo` is returned
instead).  The caller `resolveFile` treats a sub-threshold result as no
match: it neither writes tags nor fails the file, and it writes tags only
when the threshold was reached. -/
theorem c1_amended_primary_match :
    (∀ (th : Q) (query : SearchQuery) (r : TrackInfo) (rs : List TrackInfo)
        (pre post : List ProvResult),
      (∀ x ∈ pre, clearsB th query x = false) →
      Q.le th (pickBest query (r :: rs)).Confidence →
      findPrimaryMatch th query (pre ++ ProvResult.ok (r :: rs) :: post) =
        (pickBest query (r :: rs), pre.length)) ∧
    (∀ (th : Q) (query : SearchQuery) (provs : List ProvResult),
      (∀ x ∈ provs, clearsB th query x = false) →
      findPrimaryMatch th query provs =
        (scoredFrom query 0 provs).foldl keepBetter (TrackInfo.zeroVal, 0) ∧
      (∀ c ∈ scoredFrom query 0 provs,
        Q.le c.1.Confidence (findPrimaryMatch th query provs).1.Confidence) ∧
      (Q.lt qZero th → Q.lt (findPrimaryMatch th query provs).1.Confidence th) ∧
      (Q.lt qZero (findPrimaryMatch th query provs).1.Confidence →
        findPrimaryMatch th query provs ∈ scoredFrom query 0 provs)) ∧
    (∀ (th : Q) (f : FileEnv) (tags : TagMap), f.readTags = some tags →
      (Q.lt (findPrimaryMatch th (fileQuery tags) f.provResults).1.Confidence th →
        resolveFile th f = ⟨false, false, none⟩) ∧
      ((resolveFile th f).wrote = true →
        Q.le th (findPrimaryMatch th (fileQuery tags) f.provResults).1.Confidence)) := by
  refine ⟨?_, ?_, ?_⟩
  · intro th query r rs pre post hpre hc
    have := fpmAux_clear th query r rs hc pre post TrackInfo.zeroVal 0 0 hpre
    simpa [findPrimaryMatch] using this
  · intro th query provs hnc
    have heq : findPrimaryMatch th query provs =
        (scoredFrom query 0 provs).foldl keepBetter (TrackInfo.zeroVal, 0) :=
      fpmAux_noclear th query provs TrackInfo.zeroVal 0 0 hnc
    refine ⟨heq, ?_, ?_, ?_⟩
    · intro c hc
      rw [heq]
      exact foldl_keepBetter_mem_le _ _ (by decide)
        (scoredFrom_den_pos query 0 provs) c hc
    · intro hth
      rcases foldl_keepBetter_mem (scoredFrom query 0 provs) (TrackInfo.zeroVal, 0) with h | h
      · rw [heq, h]; exact hth
      · rw [heq]
        exact scoredFrom_conf_lt th query provs 0 hnc _ h
    · intro hpos
      rcases foldl_keepBetter_mem (scoredFrom query 0 provs) (TrackInfo.zeroVal, 0) with h | h
      · rw [heq, h] at hpos
        exact absurd hpos (by decide)
      · rw [heq]; exact h
  · intro th f tags ht
    exact resolveFile_subthreshold th f tags ht

def c1wQ : SearchQuery := { Title := ['a'], Artist := ['b'] }

def c1wHit : TrackInfo := { Title := ['a'], Artist := ['b'] }

def c1wMid : TrackInfo := { Title := ['a'], Artist := ['z'] }

def c1wTags : TagMap := [("TITLE", ["B".toList])]

def c1wEnv : FileEnv :=
  { readTags := some c1wTags, provResults := [ProvResult.err], writeOk := true }

set_option maxRecDepth 10000 in
theorem c1_witness :
    findPrimaryMatch qOne c1wQ
        ([ProvResult.err] ++ ProvResult.ok [c1wHit] :: [ProvResult.ok []]) =
      (pickBest c1wQ [c1wHit], [ProvResult.err].length) ∧
    findPrimaryMatch (Q.mk 7 10) c1wQ [ProvResult.err, ProvResult.ok [c1wMid]] =
      (scoredFrom c1wQ 0 [ProvResult.err, ProvResult.ok [c1wMid]]).foldl keepBetter
        (TrackInfo.zeroVal, 0) ∧
    Q.lt (findPrimaryMatch (Q.mk 7 10) c1wQ
        [ProvResult.err, ProvResult.ok [c1wMid]]).1.Confidence (Q.mk 7 10) ∧
    resolveFile (Q.mk 7 10) c1wEnv = ⟨false, false, none⟩ :=
  ⟨c1_amended_primary_match.1 qOne c1wQ c1wHit [] [ProvResult.err] [ProvResult.ok []]
      (by decide) (by decide),
   (c1_amended_primary_match.2.1 (Q.mk 7 10) c1wQ
      [ProvResult.err, ProvResult.ok [c1wMid]] (by decide)).1,
   (c1_amended_primary_match.2.1 (Q.mk 7 10) c1wQ
      [ProvResult.err, ProvResult.ok [c1wMid]] (by decide)).2.2.1 (by decide),
   (c1_amended_primary_match.2.2 (Q.mk 7 10) c1wEnv c1wTags rfl).1 (by decide)⟩

/-- Claim C3: for a non-empty batch, `Resolve` errors exactly when every
file failed; some-but-not-all failures yield success. -/
theorem c3_aggregate_policy (th : Q) (files : List FileEnv) (hne : files ≠ []) :
    (Resolve th files = true ↔ ∀ f ∈ files, (resolveFile th f).failed = true) ∧
    ((∃ f ∈ files, (resolveFile th f).failed = true) →
      (∃ f ∈ files, (resolveFile th f).failed = false) →
      Resolve th files = false) := by
  constructor
  · unfold Resolve
    simp only [decide_eq_true_eq]
    exact List.filter_length_eq_length
  · intro _ hex
    obtain ⟨f, hf, hff⟩ := hex
    unfold Resolve
    simp only [decide_eq_false_iff_not]
    intro heq
    have := List.filter_length_eq_length.mp heq f hf
    simp [this] at hff

def c3wFail : FileEnv := { readTags := none, provResults := [], writeOk := true }

def c3wOk : FileEnv := { readTags := some [], provResults := [], writeOk := true }

theorem c3_witness :
    (([c3wFail, c3wOk] : List FileEnv) ≠ []) ∧
    (Resolve (Q.mk 7 10) [c3wFail, c3wOk] = true ↔
      ∀ f ∈ [c3wFail, c3wOk], (resolveFile (Q.mk 7 10) f).failed = true) ∧
    Resolve (Q.mk 7 10) [c3wFail, c3wOk] = false :=
  ⟨by decide,
   (c3_aggregate_policy (Q.mk 7 10) [c3wFail, c3wOk] (by decide)).1,
   (c3_aggregate_policy (Q.mk 7 10) [c3wFail, c3wOk] (by decide)).2
     ⟨c3wFail, by decide, by decide⟩ ⟨c3wOk, by decide, by decide⟩⟩

def c4cexTags : TagMap :=
  [("TITLE", ["My Song".toList]), ("ARTIST", ["My Artist".toList])]

def c4cexEnv : FileEnv :=
  { readTags := some c4cexTags, provResults := [ProvResult.err], writeOk := true }

set_option maxRecDepth 10000 in
/-- Claim C4 counterexample: a batch of one readable, titled file whose only
provider errors.  The provider error makes `findPrimaryMatch` come back
below threshold, the file is soft-skipped (not counted as failed), and
`Resolve` returns nil — not the non-nil error the claim requires. -/
theorem c4_counterexample :
    c4cexEnv.readTags = some c4cexTags ∧ firstTag c4cexTags tagTitle ≠ [] ∧
    (∀ p ∈ c4cexEnv.provResults, p = ProvResult.err) ∧
    (resolveFile (Q.mk 7 10) c4cexEnv).failed = false ∧
    Resolve (Q.mk 7 10) [c4cexEnv] = false := by decide

/-- Claim C4 (amended): when every provider errors for every file of a
non-empty batch of readable files, each file is soft-skipped, so `Resolve`
returns nil (success), not an error; and whenever at least one file is not
counted as failed, `Resolve` returns nil. -/
theorem c4_amended_soft_skip :
    (∀ (th : Q) (files : List FileEnv), Q.lt qZero th → files ≠ [] →
      (∀ f ∈ files, f.readTags ≠ none ∧ ∀ p ∈ f.provResults, p = ProvResult.err) →
      Resolve th files = false) ∧
    (∀ (th : Q) (files : List FileEnv),
      (∃ f ∈ files, (resolveFile th f).failed = false) →
      Resolve th files = false) := by
  have key : ∀ (th : Q) (files : List FileEnv),
      (∃ f ∈ files, (resolveFile th f).failed = false) →
      Resolve th files = false := by
    intro th files hex
    obtain ⟨f, hf, hff⟩ := hex
    unfold Resolve
    simp only [decide_eq_false_iff_not]
    intro heq
    have := List.filter_length_eq_length.mp heq f hf
    simp [this] at hff
  refine ⟨?_, key⟩
  intro th files hth hne hall
  apply key
  rcases files with _ | ⟨f, fs⟩
  · exact absurd rfl hne
  · exact ⟨f, by simp,
      resolveFile_allerr_ok th f hth (hall f (by simp)).1 (hall f (by simp)).2⟩

def c4wTags : TagMap := [("TITLE", ["A".toList])]

def c4wEnv : FileEnv :=
  { readTags := some c4wTags, provResults := [ProvResult.err], writeOk := true }

def c4wOkEnv : FileEnv := { readTags := some [], provResults := [], writeOk := true }

def c4wFailEnv : FileEnv := { readTags := none, provResults := [], writeOk := true }

set_option maxRecDepth 10000 in
theorem c4_witness :
    Resolve (Q.mk 7 10) [c4wEnv] = false ∧
    Resolve (Q.mk 7 10) [c4wOkEnv, c4wFailEnv] = false :=
  ⟨c4_amended_soft_skip.1 (Q.mk 7 10) [c4wEnv] (by decide) (by decide) (by decide),
   c4_amended_soft_skip.2 (Q.mk 7 10) [c4wOkEnv, c4wFailEnv]
     ⟨c4wOkEnv, by decide, by decide⟩⟩

/-- Claim C10: on an empty batch the total-failure branch fires (0 failed
files = 0 files) and `Resolve` returns a non-nil error. -/
theorem c10_empty_batch_error (th : Q) : Resolve th [] = true := rfl

/-- `strconv.Itoa`. -/
def intToGoStr (n : Int) : GoStr := (toString n).toList

/-- One conditional entry of the tag map built by `WriteTags`. -/
def optEntry (c : Prop) [Decidable c] (kv : String × List GoStr) : TagMap :=
  if c then [kv] else []

/-- The date entry of `WriteTags`: the full release date when present,
otherwise the numeric year when positive, otherwise nothing. -/
def dateEntry (info : TrackInfo) : TagMap :=
  if info.ReleaseDate ≠ [] then [("DATE", [info.ReleaseDate])]
  else if info.Year > 0 then [("DATE", [intToGoStr info.Year])]
  else []

/-- The tag map `WriteTags` (writer) passes to `taglib.WriteTags`: only
non-zero/non-empty fields of `info` produce entries. -/
def writeTagsMap (info : TrackInfo) : TagMap :=
  optEntry (info.Title ≠ []) ("TITLE", [info.Title]) ++
  optEntry (info.Artist ≠ []) ("ARTIST", [info.Artist]) ++
  optEntry (info.Album ≠ []) ("ALBUM", [info.Album]) ++
  optEntry (info.AlbumArtist ≠ []) ("ALBUMARTIST", [info.AlbumArtist]) ++
  optEntry (info.TrackNumber > 0) ("TRACKNUMBER", [intToGoStr info.TrackNumber]) ++
  optEntry (info.DiscNumber > 0) ("DISCNUMBER", [intToGoStr info.DiscNumber]) ++
  dateEntry info ++
  optEntry (info.Genre ≠ []) ("GENRE", [info.Genre]) ++
  optEntry (info.ISRC ≠ []) ("ISRC", [info.ISRC])

structure ArtworkOutcome where
  failed : Bool
  wroteImage : Bool
deriving DecidableEq

/-- `WriteArtwork` (writer): empty input is a successful no-op; otherwise
the underlying `taglib.WriteImage` result (an input of the model) decides
the outcome. -/
def WriteArtwork (imageData : List Nat) (writeImageOk : Bool) : ArtworkOutcome :=
  if imageData.length = 0 then ⟨false, false⟩
  else if writeImageOk then ⟨false, true⟩ else ⟨true, false⟩

theorem mem_optEntry {x : String × List GoStr} {c : Prop} [Decidable c]
    {kv : String × List GoStr} : x ∈ optEntry c kv ↔ c ∧ x = kv := by
  unfold optEntry
  split_ifs with h <;> simp [h]

theorem mem_dateEntry {x : String × List GoStr} {info : TrackInfo} :
    x ∈ dateEntry info ↔
      (info.ReleaseDate ≠ [] ∧ x = ("DATE", [info.ReleaseDate])) ∨
      (info.ReleaseDate = [] ∧ info.Year > 0 ∧ x = ("DATE", [intToGoStr info.Year])) := by
  unfold dateEntry
  split_ifs with h1 h2
  · simp [h1]
  · push_neg at h1
    simp [h1, h2]
  · push_neg at h1
    simp [h1, h2]

/-- Claim C9: the tag map written by `WriteTags` contains an entry exactly
for each non-zero/non-empty field, with that field's value; the DATE entry
prefers the release date over the numeric year; no other key ever appears
(so pre-existing tags under other keys are untouched); and `WriteArtwork`
on empty input succeeds without writing. -/
theorem c9_write_tags_nonzero (info : TrackInfo) :
    (∀ v, ("TITLE", v) ∈ writeTagsMap info ↔ info.Title ≠ [] ∧ v = [info.Title]) ∧
    (∀ v, ("ARTIST", v) ∈ writeTagsMap info ↔ info.Artist ≠ [] ∧ v = [info.Artist]) ∧
    (∀ v, ("ALBUM", v) ∈ writeTagsMap info ↔ info.Album ≠ [] ∧ v = [info.Album]) ∧
    (∀ v, ("ALBUMARTIST", v) ∈ writeTagsMap info ↔
      info.AlbumArtist ≠ [] ∧ v = [info.AlbumArtist]) ∧
    (∀ v, ("TRACKNUMBER", v) ∈ writeTagsMap info ↔
      info.TrackNumber > 0 ∧ v = [intToGoStr info.TrackNumber]) ∧
    (∀ v, ("DISCNUMBER", v) ∈ writeTagsMap info ↔
      info.DiscNumber > 0 ∧ v = [intToGoStr info.DiscNumber]) ∧
    (∀ v, ("DATE", v) ∈ writeTagsMap info ↔
      (info.ReleaseDate ≠ [] ∧ v = [info.ReleaseDate]) ∨
      (info.ReleaseDate = [] ∧ info.Year > 0 ∧ v = [intToGoStr info.Year])) ∧
    (∀ v, ("GENRE", v) ∈ writeTagsMap info ↔ info.Genre ≠ [] ∧ v = [info.Genre]) ∧
    (∀ v, ("ISRC", v) ∈ writeTagsMap info ↔ info.ISRC ≠ [] ∧ v = [info.ISRC]) ∧
    ((writeTagsMap info).all fun kv => decide (kv.1 ∈
      (["TITLE", "ARTIST", "ALBUM", "ALBUMARTIST", "TRACKNUMBER",
        "DISCNUMBER", "DATE", "GENRE", "ISRC"] : List String))) = true ∧
    (∀ wOk : Bool, WriteArtwork [] wOk = ⟨false, false⟩) := by
  refine ⟨?_, ?_, ?_, ?_, ?_, ?_, ?_, ?_, ?_, ?_, fun _ => rfl⟩
  all_goals
    first
      | (intro v
         simp [writeTagsMap, mem_optEntry, mem_dateEntry, List.mem_append])
      | (simp only [List.all_eq_true, decide_eq_true_eq]
         intro kv hkv
         simp only [writeTagsMap, mem_optEntry, mem_dateEntry,
           List.mem_append] at hkv
         rcases hkv with
           ((((((((h | h) | h) | h) | h) | h) | (h | h)) | h) | h) <;>
           (first
             | (rw [h.2]; simp)
             | (rw [h.2.2]; simp)))

def c1cexQ : SearchQuery := { Title := ['a'] }

def c1cexC : TrackInfo := { Title := ['x'] }

/-- Claim C1 counterexample: with one provider returning a single candidate
that scores 0 (below the 0.7 threshold), `findPrimaryMatch` does not return
that highest-scoring candidate seen — it returns the zero-value `TrackInfo`
(empty title, confidence 0) with index 0, because the running leader is only
replaced on a strictly greater confidence and the seen candidate ties the
zero value at 0. -/
theorem c1_counterexample :
    (∀ p ∈ [ProvResult.ok [c1cexC]], clearsB (Q.mk 7 10) c1cexQ p = false) ∧
    scoredFrom c1cexQ 0 [ProvResult.ok [c1cexC]] = [(pickBest c1cexQ [c1cexC], 0)] ∧
    findPrimaryMatch (Q.mk 7 10) c1cexQ [ProvResult.ok [c1cexC]] ≠
      (pickBest c1cexQ [c1cexC], 0) ∧
    (findPrimaryMatch (Q.mk 7 10) c1cexQ [ProvResult.ok [c1cexC]]).1 =
      TrackInfo.zeroVal := by decide

end Ytm
